import Mathlib

/-!
Verification development for the langsmith-fetch repository (TypeScript).

Shallow embedding conventions:
- JavaScript strings are modelled as `List Char` (`JStr`); JS string
  truthiness ("" is falsy) is modelled as non-emptiness.
- JavaScript numbers appearing in the verified paths are modelled as `Int`;
  a "number or NaN" result (e.g. `Date.prototype.getTime`) is `Option Int`
  with `none` standing for NaN, and a nullable number field whose value can
  also be NaN is `NumOrNull`.
- `undefined`/absent fields are `Option _` with `none`.
- Platform primitives that the source calls but does not define
  (`JSON.parse`, `Date` parsing, the network) are parameters of the
  embedded functions: `decode : JStr → Option μ` models `JSON.parse`
  (with `none` for a thrown SyntaxError), `getTime : JStr → Option Int`
  models `new Date(s).getTime()` (with `none` for NaN / invalid date),
  and per-item fetch outcomes are `Except` values.
All definitions below are translated from src/src/fetchers.ts,
src/src/cli.ts and src/src/types.ts except where a doc comment says
otherwise.
-/

namespace LangsmithFetch

/-- JavaScript strings, modelled as lists of characters. -/
abbrev JStr := List Char

/-- A JavaScript runtime value as far as the verified code inspects one:
the code only ever distinguishes numbers (`typeof v === 'number'`) from
everything else, so other shapes are collapsed. -/
inductive JsVal where
  | num (n : Int)
  | str (s : JStr)
  | nullv
  | other
deriving DecidableEq

/-- The `thread_id` / `session_id` projection of a run's custom metadata
record (`extra.metadata : Record<string, unknown>` in types.ts); the code
casts these two entries to `string | undefined`, so they are modelled as
optional strings.  Other entries of the record are never inspected by the
verified paths. -/
structure CustomMeta where
  thread_id : Option JStr := none
  session_id : Option JStr := none
deriving DecidableEq

/-- `extra?: { metadata?: Record<string, unknown> }` from types.ts. -/
structure RunExtra where
  metadata : Option CustomMeta := none
deriving DecidableEq

/-- Message content: `string | ContentItem[]` from types.ts.  Content
items are opaque to every verified path, so they are modelled as `JsVal`. -/
inductive MsgContent where
  | text (s : JStr)
  | items (blocks : List JsVal)
deriving DecidableEq

/-- `Message` from types.ts (tool-call fields are collapsed into the
opaque content model: no verified path inspects them). -/
structure Message where
  type : Option JStr := none
  role : Option JStr := none
  content : MsgContent := .text []
  name : Option JStr := none
deriving DecidableEq

/-- `Feedback` from types.ts.  `score` is a nullable number; `value` and
`correction` are opaque. -/
structure Feedback where
  id : Option JStr := none
  key : Option JStr := none
  score : Option Int := none
  value : JsVal := .nullv
  comment : Option JStr := none
  correction : JsVal := .nullv
  created_at : Option JStr := none
deriving DecidableEq

/-- `outputs?: { messages?: Message[] }` from types.ts. -/
structure RunOutputs where
  messages : Option (List Message) := none
deriving DecidableEq

/-- `RawRun` from types.ts.  Token counts and costs are modelled as `Int`
(no verified path does arithmetic on them); `feedback_stats` is the
runtime shape an association list of string keys to runtime values, since
`hasFeedback` checks `typeof v === 'number'` on each value. -/
structure RawRun where
  id : JStr
  name : Option JStr := none
  status : Option JStr := none
  start_time : Option JStr := none
  end_time : Option JStr := none
  extra : Option RunExtra := none
  outputs : Option RunOutputs := none
  messages : Option (List Message) := none
  prompt_tokens : Option Int := none
  completion_tokens : Option Int := none
  total_tokens : Option Int := none
  prompt_cost : Option Int := none
  completion_cost : Option Int := none
  total_cost : Option Int := none
  first_token_time : Option JStr := none
  feedback_stats : Option (List (JStr × JsVal)) := none
  session_id : Option JStr := none
deriving DecidableEq

/-- A JS `number | null` field whose number part can also be NaN
(`duration_ms` in RunMetadata: it is declared `number | null` but the
computation can produce NaN at runtime). -/
inductive NumOrNull where
  | nullv
  | nan
  | num (n : Int)
deriving DecidableEq

/-- `TokenUsage` from types.ts. -/
structure TokenUsage where
  prompt_tokens : Option Int
  completion_tokens : Option Int
  total_tokens : Option Int
deriving DecidableEq

/-- `Costs` from types.ts. -/
structure Costs where
  prompt_cost : Option Int
  completion_cost : Option Int
  total_cost : Option Int
deriving DecidableEq

/-- `RunMetadata` from types.ts (normalized view of a run). -/
structure RunMetadata where
  status : Option JStr
  start_time : Option JStr
  end_time : Option JStr
  duration_ms : NumOrNull
  custom_metadata : CustomMeta
  token_usage : TokenUsage
  costs : Costs
  first_token_time : Option JStr
  feedback_stats : List (JStr × JsVal)
deriving DecidableEq

/-- `ApiError` from types.ts (message, HTTP status code, raw body). -/
structure ApiError where
  message : JStr
  statusCode : Int
  responseBody : JStr
deriving DecidableEq

/-- `TraceData` from types.ts: `metadata` and `feedback` are optional
fields that may be absent from the returned object entirely. -/
structure TraceData where
  trace_id : JStr
  messages : List Message
  metadata : Option RunMetadata := none
  feedback : Option (List Feedback) := none
deriving DecidableEq

/-- `ThreadData` from types.ts. -/
structure ThreadData where
  thread_id : JStr
  messages : List Message
  metadata : Option RunMetadata := none
  feedback : Option (List Feedback) := none
deriving DecidableEq

/-- `extractRunMetadata` (fetchers.ts lines 55-89), parameterized by the
platform primitive `getTime s` = `new Date(s).getTime()` (`none` = NaN).

Faithfulness notes, load-bearing for the duration claims:
- `if (run.start_time && run.end_time)` uses JS truthiness, so a present
  but empty string behaves like an absent one (duration stays null).
- The source wraps the two `getTime` calls in try/catch, but `new Date`
  and `getTime` never throw on string inputs: an unparseable string
  yields an Invalid Date whose `getTime()` is NaN, and `NaN - x` is NaN.
  The catch block is therefore unreachable, and `durationMs` becomes NaN
  (not null) when a present timestamp fails to parse.  This is modelled
  by `NumOrNull.nan`. -/
def extractRunMetadata (getTime : JStr → Option Int) (run : RawRun) : RunMetadata :=
  let extra := run.extra.getD {}
  let customMetadata := extra.metadata.getD {}
  let durationMs : NumOrNull :=
    match run.start_time, run.end_time with
    | some s, some e =>
      if s.isEmpty || e.isEmpty then .nullv
      else
        match getTime s, getTime e with
        | some a, some b => .num (b - a)
        | _, _ => .nan
    | _, _ => .nullv
  { status := run.status
    start_time := run.start_time
    end_time := run.end_time
    duration_ms := durationMs
    custom_metadata := customMetadata
    token_usage :=
      { prompt_tokens := run.prompt_tokens
        completion_tokens := run.completion_tokens
        total_tokens := run.total_tokens }
    costs :=
      { prompt_cost := run.prompt_cost
        completion_cost := run.completion_cost
        total_cost := run.total_cost }
    first_token_time := run.first_token_time
    feedback_stats := run.feedback_stats.getD [] }

/-- `hasFeedback` (fetchers.ts lines 91-97): at least one feedback-stat
value is a number greater than zero.  (The `if (!stats) return false`
guard is vacuous here because the extractor always defaults the stats to
an empty record.) -/
def hasFeedback (metadata : RunMetadata) : Bool :=
  metadata.feedback_stats.any fun p =>
    match p.2 with
    | .num n => decide (0 < n)
    | _ => false

/-- Shape of the feedback HTTP interaction observed by `fetchFeedback`,
including the paths that throw: the fetch promise may reject outright
(`fetchRejected`, e.g. a network failure); the response may complete
with a non-ok status (`failure`); on an ok status the body read
(`response.json()`) may reject (`okBodyRejected`); or the body parses as
an array, an object carrying a `feedback` key, some other object, or a
non-object primitive such as `null` or a number (`okPrimitive`), on
which the source's `'feedback' in data` probe throws a TypeError. -/
inductive FeedbackHttp where
  | fetchRejected (e : JStr)
  | failure (status : Int)
  | okBodyRejected (e : JStr)
  | okArray (fs : List Feedback)
  | okObjectWithFeedback (fs : List Feedback)
  | okObjectOther
  | okPrimitive
deriving DecidableEq

/-- The message of the TypeError thrown by applying the `in` operator to
a non-object value. -/
def inOperatorTypeErrorMsg : JStr :=
  "TypeError: cannot use the in operator on a non-object body".toList

/-- `fetchFeedback` (fetchers.ts lines 99-120), as a function of the
outcome of its HTTP interaction.  The source guards only the
non-ok-status path (a logged warning and an empty list); it has no
try/catch, so every other failure mode of the lookup throws and
propagates to the caller: a rejected `fetch` promise and a rejected
`response.json()` reject the async function, and an ok response whose
JSON body is not an object makes `'feedback' in data` throw a TypeError.
An ok array body is returned as-is, an ok object body with a `feedback`
key yields that field, and an ok object body without one falls through
to the final `return []`. -/
def fetchFeedback : FeedbackHttp → Except JStr (List Feedback)
  | .fetchRejected e => .error e
  | .failure _ => .ok []
  | .okBodyRejected e => .error e
  | .okArray fs => .ok fs
  | .okObjectWithFeedback fs => .ok fs
  | .okObjectOther => .ok []
  | .okPrimitive => .error inOperatorTypeErrorMsg

/-- `fetchTrace` (fetchers.ts lines 122-153), as a function of the run
payload the transport returned and of the feedback list the conditional
`fetchFeedback` call would return (`feedbackFetched`).

- `run.messages || run.outputs?.messages || []`: a present array (even
  empty) is truthy, so the first present field wins.
- metadata and feedback are attached when `includeMetadata ||
  includeFeedback`; feedback is the fetched list only when feedback was
  requested and the computed metadata indicates feedback is present,
  otherwise the empty list.
This function covers the paths on which the conditional lookup, if
performed at all, returned a list; the lookup's own exceptional path
(line 146 awaits `fetchFeedback`, whose rejection propagates) is modelled
by `fetchTraceE` below. -/
def fetchTrace (getTime : JStr → Option Int) (traceId : JStr) (run : RawRun)
    (includeMetadata includeFeedback : Bool)
    (feedbackFetched : List Feedback) : TraceData :=
  let messages : List Message :=
    run.messages.getD ((run.outputs.bind fun o => o.messages).getD [])
  let result : TraceData := { trace_id := traceId, messages := messages }
  if includeMetadata || includeFeedback then
    let md := extractRunMetadata getTime run
    let fb : List Feedback :=
      if includeFeedback && hasFeedback md then feedbackFetched else []
    { result with metadata := some md, feedback := some fb }
  else result

/-- The guard on fetchers.ts line 145: the separate feedback lookup is
issued exactly when feedback was requested and `hasFeedback` holds of the
metadata just computed. -/
def feedbackLookupPerformed (getTime : JStr → Option Int) (run : RawRun)
    (includeFeedback : Bool) : Bool :=
  includeFeedback && hasFeedback (extractRunMetadata getTime run)

/-- `fetchTrace` (fetchers.ts lines 122-153) including the exceptional
path of the conditional feedback lookup: line 146 is
`result.feedback = await fetchFeedback(traceId)` with no try/catch
anywhere on the path, so when the lookup is performed and throws, the
rejection propagates out of `fetchTrace` and no TraceData is produced.
The lookup's HTTP interaction is the `feedbackResp` parameter. -/
def fetchTraceE (getTime : JStr → Option Int) (traceId : JStr) (run : RawRun)
    (includeMetadata includeFeedback : Bool)
    (feedbackResp : FeedbackHttp) : Except JStr TraceData :=
  let messages : List Message :=
    run.messages.getD ((run.outputs.bind fun o => o.messages).getD [])
  let result : TraceData := { trace_id := traceId, messages := messages }
  if includeMetadata || includeFeedback then
    let md := extractRunMetadata getTime run
    if includeFeedback && hasFeedback md then
      match fetchFeedback feedbackResp with
      | .error e => .error e
      | .ok fs => .ok { result with metadata := some md, feedback := some fs }
    else .ok { result with metadata := some md, feedback := some [] }
  else .ok result

/-- The message-blob splitter used inside `fetchThread` (fetchers.ts line
167): JavaScript `messagesText.split('\n\n')` — split on each leftmost
occurrence of two consecutive newline characters, scanning left to
right. -/
def splitNN : List Char → List (List Char)
  | [] => [[]]
  | [c] => [[c]]
  | c :: d :: rest =>
    if c = '\n' ∧ d = '\n' then [] :: splitNN rest
    else
      match splitNN (d :: rest) with
      | [] => [[c]]
      | s :: ss => (c :: s) :: ss

/-- The whitespace class used by the model of `String.prototype.trim`.
(JS trim also strips rarer Unicode space code points; they never occur in
the verified properties.) -/
def isJsSpace (c : Char) : Bool :=
  c = ' ' || c = '\t' || c = '\n' || c = '\r'

/-- Model of JavaScript `line.trim()` (fetchers.ts line 168): strip
whitespace from both ends. -/
def jsTrim (s : JStr) : JStr :=
  ((s.dropWhile isJsSpace).reverse.dropWhile isJsSpace).reverse

/-- The message-stream parsing loop of `fetchThread` (fetchers.ts lines
164-176), parameterized by the platform primitive `decode t` =
`JSON.parse(t)` (`none` models a thrown SyntaxError, whose segment is
skipped): split the blob on blank lines, trim each segment, keep only the
non-empty segments that decode, in source order. -/
def parseMessageStream {μ : Type} (decode : JStr → Option μ) (blob : JStr) : List μ :=
  (splitNN blob).filterMap fun line =>
    let t := jsTrim line
    if t = [] then none else decode t

/-- `fetchThread` (fetchers.ts lines 155-182), as a function of the
consolidated message blob (`data.previews.all_messages`) the transport
returned. -/
def fetchThread (decode : JStr → Option Message) (threadId : JStr)
    (allMessages : JStr) : ThreadData :=
  { thread_id := threadId, messages := parseMessageStream decode allMessages }

/-- The thread-identifier extraction on fetchers.ts lines 312-313:
`run.extra?.metadata ?? {}`, then `meta.thread_id ?? meta.session_id`
(nullish coalescing: `session_id` is used only when `thread_id` is
absent, not when it is merely empty). -/
def rawThreadId (run : RawRun) : Option JStr :=
  let meta := (run.extra.bind fun e => e.metadata).getD {}
  match meta.thread_id with
  | some t => some t
  | none => meta.session_id

/-- The deduplication loop of `fetchThreads` (fetchers.ts lines 310-318),
carrying the set of already-inserted ids (`seen`, in reverse insertion
order; the source uses a `Map` whose keys it later enumerates — the list
returned here is exactly that key enumeration, i.e. insertion order).
`if (threadId && !threadIds.has(threadId))` requires a truthy (non-empty)
id that was not inserted before; the `break` fires after an insertion
makes the collection reach the limit. -/
def collectThreadIds (limit : Nat) (seen : List JStr) : List RawRun → List JStr
  | [] => []
  | run :: rest =>
    match rawThreadId run with
    | some t =>
      if t ≠ [] ∧ t ∉ seen then
        if seen.length + 1 ≥ limit then [t]
        else t :: collectThreadIds limit (t :: seen) rest
      else collectThreadIds limit seen rest
    | none => collectThreadIds limit seen rest

/-- The deduplicated, limit-capped thread-id list that `fetchThreads`
fans out over (fetchers.ts lines 310-318 and 326). -/
def dedupThreadIds (runs : List RawRun) (limit : Nat) : List JStr :=
  collectThreadIds limit [] runs

/-- Modelled from the spec (§4.6): the uncapped order-preserving unique
collection of extracted thread ids, "first occurrence wins; later
occurrences of the same id are ignored".  This is the spec-side
definition the capped source loop is compared against. -/
def collectThreadIdsSpec (seen : List JStr) : List RawRun → List JStr
  | [] => []
  | run :: rest =>
    match rawThreadId run with
    | some t =>
      if t ≠ [] ∧ t ∉ seen then t :: collectThreadIdsSpec (t :: seen) rest
      else collectThreadIdsSpec seen rest
    | none => collectThreadIdsSpec seen rest

/-- Modelled from the spec (§4.6): all first-seen thread ids of a run
list, in arrival order, with no cap. -/
def dedupAllThreadIds (runs : List RawRun) : List JStr :=
  collectThreadIdsSpec [] runs

/-- One bulk task's settled value (fetchers.ts lines 238-261 and
326-340): the per-item fetch either succeeds with a value or throws, and
the catch branch converts the failure into `null` (here `none`) after
logging a warning, so a task never rejects. -/
def bulkSettled {α β ε : Type} (fetchOne : α → Except ε β) (items : List α) :
    List (Option β) :=
  items.map fun a => (fetchOne a).toOption

/-- The fan-in of a bulk fetch (fetchers.ts lines 263-264 and 342-343):
`Promise.all` resolves with the settled values in task order (input
order), and `results.filter((r) => r !== null)` drops the failures. -/
def bulkResults {α β ε : Type} (fetchOne : α → Except ε β) (items : List α) :
    List β :=
  (bulkSettled fetchOne items).filterMap id

/-- The result list of `fetchTraces` (fetchers.ts lines 238-264) as a
function of the per-run outcome of `fetchTrace` (success value or thrown
error). -/
def fetchTracesResults {ε : Type} (fetchOne : RawRun → Except ε TraceData)
    (runs : List RawRun) : List TraceData :=
  bulkResults fetchOne runs

/-- The result list of `fetchThreads` (fetchers.ts lines 310-343) as a
function of the per-thread outcome of `fetchThread`: the item list is the
deduplicated, capped thread-id list. -/
def fetchThreadsResults {ε : Type} (fetchOne : JStr → Except ε ThreadData)
    (runs : List RawRun) (limit : Nat) : List ThreadData :=
  bulkResults fetchOne (dedupThreadIds runs limit)

/-- The progress-reporting behaviour of one bulk call (fetchers.ts lines
236, 251-252 and 256-257; identically lines 323, 330-331 and 335-336):
each settling task runs `completed++; onProgress?.(completed, total)`
atomically (the JS event loop never interleaves another task between the
increment and the call).  Given the shared counter's current value and
the remaining settle events in the order the scheduler settles them
(`true` = task succeeded, `false` = task threw — both branches report),
this returns the argument pairs passed to the callback, in call order. -/
def emitProgress (total completed : Nat) : List Bool → List (Nat × Nat)
  | [] => []
  | _ :: rest => (completed + 1, total) :: emitProgress total (completed + 1) rest

/-- All arguments passed to the progress callback over the life of one
bulk call whose tasks settle in the given order with the given
success/failure mix. -/
def progressCalls (outcomes : List Bool) : List (Nat × Nat) :=
  emitProgress outcomes.length 0 outcomes

/-- Modelled from the spec (§5 and §4.7): the `p-limit` semaphore the
orchestrator wraps every task in is an external npm dependency (not in
src/), so the concurrency discipline is modelled as a step relation on an
abstract pool state: a queued task may start only while fewer than `k`
tasks are in flight, and an in-flight task may finish. -/
structure PoolState where
  pending : Nat
  active : Nat
  done : Nat
deriving DecidableEq

/-- Modelled from the spec (§5): one scheduler step of the bounded pool
with concurrency bound `k`. -/
inductive PoolStep (k : Nat) : PoolState → PoolState → Prop
  | start {s : PoolState} (hp : 0 < s.pending) (ha : s.active < k) :
      PoolStep k s ⟨s.pending - 1, s.active + 1, s.done⟩
  | finish {s : PoolState} (ha : 0 < s.active) :
      PoolStep k s ⟨s.pending, s.active - 1, s.done + 1⟩

/-- States reachable by the bounded pool from the initial state of a
batch of `n` queued items. -/
def PoolReachable (k n : Nat) (s : PoolState) : Prop :=
  Relation.ReflTransGen (PoolStep k) ⟨n, 0, 0⟩ s

/-- Model of `since.replace('Z', '+00:00')` (fetchers.ts line 223):
JavaScript `replace` with a string pattern replaces only the first
occurrence. -/
def replaceFirstZ : JStr → JStr
  | [] => []
  | c :: rest =>
    if c = 'Z' then '+' :: '0' :: '0' :: ':' :: '0' :: '0' :: rest
    else c :: replaceFirstZ rest

/-- The start-time computation of the query builder (fetchers.ts lines
219-225, duplicated verbatim on lines 293-299 for threads), parameterized
by the platform date parser (`parseDate s` = the epoch-milliseconds value
of `new Date(s)`); `now` is `Date.now()` and timestamps are modelled as
epoch milliseconds.  `lastNMinutes != null` takes precedence; `else if
(since)` uses JS truthiness, so an empty `since` string leaves the query
unfiltered. -/
def queryStartTime (parseDate : JStr → Int) (now : Int)
    (lastNMinutes : Option Int) (since : Option JStr) : Option Int :=
  match lastNMinutes with
  | some m => some (now - m * 60000)
  | none =>
    match since with
    | some s => if s.isEmpty then none else some (parseDate (replaceFirstZ s))
    | none => none

/-- The usage-error message the CLI prints when both time filters are
supplied (cli.ts line 230, identically line 440). -/
def mutuallyExclusiveMsg : JStr :=
  "Error: --last-n-minutes and --since are mutually exclusive".toList

/-- The CLI guard (cli.ts lines 228-233 for traces, 438-443 for threads):
`if (lastNMinutes != null && opts.since)` prints the usage error and
exits before any fetcher is invoked; `opts.since` is checked by JS
truthiness. -/
def cliTimeFlagsCheck (lastNMinutes : Option Int) (since : Option JStr) :
    Except JStr Unit :=
  if lastNMinutes.isSome && (match since with | some s => !s.isEmpty | none => false)
  then .error mutuallyExclusiveMsg
  else .ok ()

/-- The composition the CLI actually executes for the time filters: run
the CLI guard first; only if it passes, build the query's start_time the
way the fetcher does (cli.ts lines 228-233 followed by fetchers.ts lines
219-225). -/
def cliFetchTracesPlan (parseDate : JStr → Int) (now : Int)
    (lastNMinutes : Option Int) (since : Option JStr) :
    Except JStr (Option Int) :=
  match cliTimeFlagsCheck lastNMinutes since with
  | .error e => .error e
  | .ok _ => .ok (queryStartTime parseDate now lastNMinutes since)

/-! Helper lemmas shared by the claim theorems. -/

theorem emitProgress_eq (total : Nat) (l : List Bool) : ∀ completed : Nat,
    emitProgress total completed l =
      (List.range l.length).map (fun i => (completed + i + 1, total)) := by
  induction l with
  | nil => intro completed; simp [emitProgress]
  | cons b rest ih =>
    intro completed
    simp only [emitProgress, ih (completed + 1), List.length_cons,
      List.range_succ_eq_map, List.map_cons, List.map_map, List.cons.injEq]
    refine ⟨by simp, ?_⟩
    apply List.map_congr_left
    intro i _
    simp [Function.comp]
    omega

/-! C2: progress reporting. -/

/-- C2: over one bulk call with any settle order and any success/failure
mix (`outcomes`, one entry per settled item), the progress callback is
invoked exactly `n` times for `n` items; the completed-count arguments
are exactly 1, 2, ..., n in that (strictly increasing) order, each value
occurring once; and the total argument of every invocation is `n`. -/
theorem progress_callback_counts (outcomes : List Bool) :
    progressCalls outcomes =
      (List.range outcomes.length).map (fun i => (i + 1, outcomes.length))
    ∧ (progressCalls outcomes).length = outcomes.length
    ∧ (progressCalls outcomes).map Prod.fst =
        (List.range outcomes.length).map (fun i => i + 1)
    ∧ (progressCalls outcomes).Pairwise (fun p q => p.1 < q.1)
    ∧ ∀ p ∈ progressCalls outcomes, p.2 = outcomes.length := by
  have he : progressCalls outcomes =
      (List.range outcomes.length).map (fun i => (i + 1, outcomes.length)) := by
    have := emitProgress_eq outcomes.length outcomes 0
    simpa [progressCalls] using this
  refine ⟨he, by simp [he], by simp [he, List.map_map, Function.comp], ?_, ?_⟩
  · rw [he]
    refine List.Pairwise.map _ ?_ (List.pairwise_lt_range outcomes.length)
    intro a b hab
    simpa using hab
  · intro p hp
    rw [he] at hp
    obtain ⟨i, _, rfl⟩ := List.mem_map.mp hp
    rfl

/-! C8: presence of the metadata and feedback fields of fetchTrace. -/

/-- A trivial model of `Date.getTime` used by concrete counterexamples:
every string is an invalid date (NaN). -/
def getTimeNone : JStr → Option Int := fun _ => none

/-- A minimal run payload (only the mandatory id). -/
def exBareRun : RawRun := { id := ['r'] }

/-- C8 counterexample: the claim "metadata is present iff metadata was
requested, and feedback is present iff feedback was requested" is false.
Requesting only feedback (`includeMetadata = false`) still attaches a
metadata record, and requesting only metadata (`includeFeedback = false`)
still attaches a (empty) feedback list: fetchers.ts line 142 branches on
`includeMetadata || includeFeedback` and then always sets both fields. -/
theorem fetchTrace_fields_iff_requested_false :
    ((fetchTrace getTimeNone ['t'] exBareRun false true []).metadata).isSome = true
    ∧ (fetchTrace getTimeNone ['t'] exBareRun true false []).feedback = some [] := by
  constructor <;> rfl

/-- C8 amended: each of the metadata and feedback fields of the returned
TraceData is present if and only if at least one of metadata and feedback
was requested; in particular both fields are omitted entirely exactly
when neither was requested. -/
theorem fetchTrace_fields_iff_either_requested (getTime : JStr → Option Int)
    (traceId : JStr) (run : RawRun) (im fb : Bool) (fbl : List Feedback) :
    ((fetchTrace getTime traceId run im fb fbl).metadata).isSome = (im || fb)
    ∧ ((fetchTrace getTime traceId run im fb fbl).feedback).isSome = (im || fb) := by
  cases im <;> cases fb <;> simp [fetchTrace]

/-! C9: the conditional feedback lookup and its failure modes. -/

/-- A run whose feedback stats indicate feedback is present (one positive
numeric stat value). -/
def exRunWithFeedbackStat : RawRun :=
  { id := ['r'], feedback_stats := some [("helpfulness".toList, JsVal.num 1)] }

/-- C9 counterexample: a feedback-lookup failure can be fatal to the
fetchTrace call.  With feedback requested and the run's stats indicating
feedback is present, the lookup is performed; `fetchFeedback` guards only
the non-ok-status path and there is no try/catch anywhere on the path of
fetchers.ts line 146, so when the lookup's fetch promise rejects (network
failure) the rejection propagates and fetchTrace produces no TraceData at
all — contradicting the claim that on any failure the result's feedback
is an empty list and the failure is never propagated to the caller. -/
theorem feedback_lookup_failure_fatal_counterexample :
    hasFeedback (extractRunMetadata getTimeNone exRunWithFeedbackStat) = true
    ∧ fetchTraceE getTimeNone ['t'] exRunWithFeedbackStat false true
        (.fetchRejected "network failure".toList)
        = .error "network failure".toList
    ∧ (fetchTraceE getTimeNone ['t'] exRunWithFeedbackStat false true
        (.fetchRejected "network failure".toList)).toOption = none := by
  refine ⟨rfl, rfl, rfl⟩

/-- C9 amended: the separate feedback lookup is performed exactly when
feedback was requested and the computed metadata indicates feedback is
present ("present" meaning at least one feedback-stat value is a number
greater than zero).  A lookup failure that manifests as a completed HTTP
response with a non-success status is swallowed: logged as a warning, the
result's feedback becomes the empty list, and the fetchTrace call still
succeeds.  But a failure thrown by the lookup itself — a rejected fetch,
a rejected body decode, or the TypeError from probing a non-object JSON
body with the `in` operator — is not caught anywhere and is fatal to the
fetchTrace call; a successful lookup yields the fetched list. -/
theorem feedback_lookup_gated_and_http_failure_swallowed
    (getTime : JStr → Option Int) (traceId : JStr) (run : RawRun)
    (im fb : Bool) (status : Int) (e : JStr) (fs : List Feedback)
    (hpresent : hasFeedback (extractRunMetadata getTime run) = true) :
    fetchFeedback (.failure status) = .ok []
    ∧ feedbackLookupPerformed getTime run false = false
    ∧ feedbackLookupPerformed getTime run true
        = hasFeedback (extractRunMetadata getTime run)
    ∧ (hasFeedback (extractRunMetadata getTime run) = true ↔
        ∃ p ∈ (extractRunMetadata getTime run).feedback_stats,
          ∃ n : Int, p.2 = JsVal.num n ∧ 0 < n)
    ∧ fetchTraceE getTime traceId run im true (.failure status)
        = .ok (fetchTrace getTime traceId run im true [])
    ∧ fetchTraceE getTime traceId run im true (.fetchRejected e) = .error e
    ∧ fetchTraceE getTime traceId run im true (.okBodyRejected e) = .error e
    ∧ fetchTraceE getTime traceId run im true .okPrimitive
        = .error inOperatorTypeErrorMsg
    ∧ fetchTraceE getTime traceId run im fb (.okArray fs)
        = .ok (fetchTrace getTime traceId run im fb fs) := by
  refine ⟨rfl, rfl, rfl, ?_, ?_, ?_, ?_, ?_, ?_⟩
  · rw [hasFeedback, List.any_eq_true]
    constructor
    · rintro ⟨p, hp, hv⟩
      refine ⟨p, hp, ?_⟩
      cases h : p.2 <;> rw [h] at hv <;> simp at hv
      exact ⟨_, rfl, hv⟩
    · rintro ⟨p, hp, n, hn, hpos⟩
      exact ⟨p, hp, by rw [hn]; simpa using hpos⟩
  · simp [fetchTraceE, fetchTrace, fetchFeedback, hpresent]
  · simp [fetchTraceE, fetchFeedback, hpresent]
  · simp [fetchTraceE, fetchFeedback, hpresent]
  · simp [fetchTraceE, fetchFeedback, hpresent]
  · cases im <;> cases fb <;>
      simp [fetchTraceE, fetchTrace, fetchFeedback, hpresent]

/-- C9 witness: at a run with one positive feedback stat, feedback
requested, the amended theorem instantiated: a non-ok status is
swallowed into a successful call with empty feedback, while a rejected
fetch, a rejected body decode and a non-object body are each fatal. -/
theorem feedback_lookup_http_failure_witness :
    hasFeedback (extractRunMetadata getTimeNone exRunWithFeedbackStat) = true
    ∧ (fetchFeedback (.failure 500) = .ok []
      ∧ feedbackLookupPerformed getTimeNone exRunWithFeedbackStat false = false
      ∧ feedbackLookupPerformed getTimeNone exRunWithFeedbackStat true
          = hasFeedback (extractRunMetadata getTimeNone exRunWithFeedbackStat)
      ∧ (hasFeedback (extractRunMetadata getTimeNone exRunWithFeedbackStat)
            = true ↔
          ∃ p ∈ (extractRunMetadata getTimeNone
              exRunWithFeedbackStat).feedback_stats,
            ∃ n : Int, p.2 = JsVal.num n ∧ 0 < n)
      ∧ fetchTraceE getTimeNone ['t'] exRunWithFeedbackStat false true
            (.failure 500)
          = .ok (fetchTrace getTimeNone ['t'] exRunWithFeedbackStat false true [])
      ∧ fetchTraceE getTimeNone ['t'] exRunWithFeedbackStat false true
            (.fetchRejected "boom".toList) = .error "boom".toList
      ∧ fetchTraceE getTimeNone ['t'] exRunWithFeedbackStat false true
            (.okBodyRejected "boom".toList) = .error "boom".toList
      ∧ fetchTraceE getTimeNone ['t'] exRunWithFeedbackStat false true .okPrimitive
          = .error inOperatorTypeErrorMsg
      ∧ fetchTraceE getTimeNone ['t'] exRunWithFeedbackStat false true
            (.okArray [])
          = .ok (fetchTrace getTimeNone ['t'] exRunWithFeedbackStat
              false true [])) := by
  exact ⟨rfl, feedback_lookup_gated_and_http_failure_swallowed getTimeNone ['t']
    exRunWithFeedbackStat false true 500 "boom".toList [] rfl⟩

/-! C5: derived duration. -/

/-- A concrete model of `Date.getTime` for the duration witnesses: the
two ISO timestamps of the spec example parse to their epoch-millisecond
offsets; everything else is an invalid date (NaN). -/
def exGetTime : JStr → Option Int := fun s =>
  if s = "2025-01-01T00:00:00Z".toList then some 0
  else if s = "2025-01-01T00:00:01Z".toList then some 1000
  else none

/-- A run with two valid timestamps one second apart. -/
def exRunGoodTimes : RawRun :=
  { id := ['r']
    start_time := some "2025-01-01T00:00:00Z".toList
    end_time := some "2025-01-01T00:00:01Z".toList }

/-- A run with a valid start timestamp and no end timestamp. -/
def exRunNoEnd : RawRun :=
  { id := ['r'], start_time := some "2025-01-01T00:00:00Z".toList }

/-- A run whose start timestamp is present but does not parse as a date. -/
def exRunBadStart : RawRun :=
  { id := ['r']
    start_time := some "not-a-date".toList
    end_time := some "2025-01-01T00:00:01Z".toList }

/-- C5: the two halves the claim gets right — both timestamps present and
parseable gives `duration_ms = end - start` (here 1000 ms), and a missing
timestamp gives `duration_ms = null` — and the half it gets wrong: when a
timestamp is present but fails to parse, `duration_ms` is NaN, not null.
`new Date(s)` never throws on a string; an unparseable string yields an
Invalid Date whose `getTime()` is NaN, so the source's catch block (whose
comment says "ignore parse errors", leaving the initial null in place) is
unreachable and `end - start` evaluates to NaN, which the pretty
formatter then renders as "Duration: NaNms" (formatters.ts line 94 checks
`!= null`, which NaN passes). -/
theorem duration_nan_on_unparseable_timestamp :
    (extractRunMetadata exGetTime exRunGoodTimes).duration_ms = .num 1000
    ∧ (extractRunMetadata exGetTime exRunNoEnd).duration_ms = .nullv
    ∧ (extractRunMetadata exGetTime exRunBadStart).duration_ms = .nan
    ∧ NumOrNull.nan ≠ NumOrNull.nullv := by
  refine ⟨rfl, rfl, rfl, by decide⟩

/-! C4: mutual exclusivity of the two time filters. -/

/-- C4 counterexample: calling the fetcher itself with both a relative
window (`lastNMinutes = 5`) and an absolute `since` timestamp does not
fail: `fetchTraces` (fetchers.ts lines 219-225) silently prefers
`lastNMinutes` — the built query's `start_time` is `now - 5 * 60000`,
the `since` value is ignored (with the constant-zero date parser, using
`since` would have produced 0) — and the query is then issued.  Only the
CLI layer rejects the combination. -/
theorem fetcher_accepts_both_time_filters :
    queryStartTime (fun _ => 0) 1000000000 (some 5)
        (some "2025-01-01T00:00:00Z".toList) = some 999700000
    ∧ (999700000 : Int) ≠ 0
    ∧ cliTimeFlagsCheck (some 5) (some "2025-01-01T00:00:00Z".toList)
        = .error mutuallyExclusiveMsg := by
  refine ⟨rfl, by decide, rfl⟩

/-- C4 amended: the fail-fast rejection of supplying both time filters
happens in the CLI layer (cli.ts lines 228-233 and 438-443), before any
fetcher runs, not inside `fetchTraces`/`fetchThreads`; the fetchers
themselves, handed both, use `lastNMinutes` and ignore `since`.  Under
the CLI composition: both supplied (with a truthy `since`) is rejected
with the usage error before the query is built; only `lastNMinutes`
supplied makes `start_time = now - minutes * 60000`; only a non-empty
`since` supplied makes `start_time` the parsed timestamp (after replacing
the first 'Z' with '+00:00'); neither supplied leaves the query
unfiltered. -/
theorem cli_time_filters_mutually_exclusive (parseDate : JStr → Int)
    (now m : Int) (s : JStr) (since : Option JStr) :
    cliFetchTracesPlan parseDate now (some m) (some s)
      = (if s.isEmpty then .ok (some (now - m * 60000))
         else .error mutuallyExclusiveMsg)
    ∧ cliFetchTracesPlan parseDate now (some m) none
        = .ok (some (now - m * 60000))
    ∧ cliFetchTracesPlan parseDate now none (some s)
        = .ok (if s.isEmpty then none else some (parseDate (replaceFirstZ s)))
    ∧ cliFetchTracesPlan parseDate now none none = .ok none
    ∧ queryStartTime parseDate now (some m) since = some (now - m * 60000) := by
  refine ⟨?_, rfl, ?_, rfl, rfl⟩
  · cases h : s.isEmpty <;>
      simp [cliFetchTracesPlan, cliTimeFlagsCheck, queryStartTime, h]
  · cases h : s.isEmpty <;>
      simp [cliFetchTracesPlan, cliTimeFlagsCheck, queryStartTime, h]

/-! C1: bulk fan-in — order preservation and failure isolation. -/

theorem filterMap_id_map_some_sublist {β : Type} (l : List (Option β)) :
    ((l.filterMap id).map some).Sublist l := by
  induction l with
  | nil => simp
  | cons o rest ih =>
    cases o with
    | none => simpa [List.filterMap_cons] using ih.cons none
    | some x => simpa [List.filterMap_cons] using ih.cons₂ (some x)

/-- C1: for any per-item fetch outcomes (success value or thrown error)
and any item list, the bulk fan-in (a) drops a failing item without
touching the results of the items before and after it, (b) returns a
subsequence of the settled-value sequence (so successes keep their
relative input order, with no placeholders and no reordering), (c) is
exactly the in-order collection of the successful results, and (d, e) is
what `fetchTraces` and `fetchThreads` return over their respective item
lists (run list and deduplicated thread-id list); the batch result is a
total function of the outcomes — no single item's failure can fail the
whole call. -/
theorem bulk_fetch_order_and_failure_isolation {α β ε : Type}
    (f : α → Except ε β) (pre post : List α) (b : α)
    (hb : (f b).toOption = none) :
    bulkResults f (pre ++ b :: post) = bulkResults f pre ++ bulkResults f post
    ∧ (∀ items : List α,
        ((bulkResults f items).map some).Sublist (bulkSettled f items))
    ∧ (∀ items : List α,
        bulkResults f items = items.filterMap fun a => (f a).toOption)
    ∧ (∀ (fr : RawRun → Except ε TraceData) (runs : List RawRun),
        fetchTracesResults fr runs = runs.filterMap fun r => (fr r).toOption)
    ∧ (∀ (ft : JStr → Except ε ThreadData) (runs : List RawRun) (lim : Nat),
        fetchThreadsResults ft runs lim
          = (dedupThreadIds runs lim).filterMap fun t => (ft t).toOption) := by
  have hfm : ∀ (items : List α),
      bulkResults f items = items.filterMap fun a => (f a).toOption := by
    intro items
    simp [bulkResults, bulkSettled, List.filterMap_map, Function.comp]
  refine ⟨?_, ?_, hfm, ?_, ?_⟩
  · rw [hfm, hfm, hfm, List.filterMap_append, List.filterMap_cons, hb]
  · intro items
    exact filterMap_id_map_some_sublist (bulkSettled f items)
  · intro fr runs
    simp [fetchTracesResults, bulkResults, bulkSettled, List.filterMap_map,
      Function.comp]
  · intro ft runs lim
    simp [fetchThreadsResults, bulkResults, bulkSettled, List.filterMap_map,
      Function.comp]

/-- Concrete per-item fetcher for the C1 witness: item 2 throws, the
others succeed with ten times their value. -/
def exFetchOne : Nat → Except (List Char) Nat := fun n =>
  if n = 2 then .error "boom".toList else .ok (10 * n)

/-- C1 witness: items [1, 2, 3] where item 2 fails yield results
[10, 30] — the failure is omitted, the neighbours keep their order. -/
theorem bulk_fetch_order_witness :
    (exFetchOne 2).toOption = none
    ∧ bulkResults exFetchOne [1, 2, 3]
        = bulkResults exFetchOne [1] ++ bulkResults exFetchOne [3]
    ∧ bulkResults exFetchOne [1, 2, 3] = [10, 30] := by
  refine ⟨rfl, ?_, by decide⟩
  exact (bulk_fetch_order_and_failure_isolation exFetchOne [1] [3] 2 rfl).1

/-! C3: the bounded concurrency pool. -/

theorem pool_invariant (k n : Nat) (s : PoolState) (hs : PoolReachable k n s) :
    s.active ≤ k ∧ s.pending + s.active + s.done = n := by
  induction hs with
  | refl => exact ⟨Nat.zero_le k, by simp⟩
  | @tail u v _ hstep ih =>
    obtain ⟨ih1, ih2⟩ := ih
    cases hstep with
    | start hp ha =>
      refine ⟨?_, ?_⟩
      · show u.active + 1 ≤ k
        omega
      · show u.pending - 1 + (u.active + 1) + u.done = n
        omega
    | finish ha =>
      refine ⟨?_, ?_⟩
      · show u.active - 1 ≤ k
        omega
      · show u.pending + (u.active - 1) + (u.done + 1) = n
        omega

/-- C3: for every concurrency bound `k ≥ 1` and batch size `n`, every
state the bounded pool can reach from the initial batch state keeps at
most `k` fetches in flight, conserves the `n` work items across the
pending/active/done partition, and — whenever the batch is not yet
finished — has an enabled scheduler step (an in-flight task can finish,
or, with no task in flight, a queued task can start since `k ≥ 1`): the
pool makes forward progress with no deadlock, also when `k = 1` or `k`
exceeds `n`. -/
theorem bounded_pool_safe_and_live (k n : Nat) (hk : 1 ≤ k) (s : PoolState)
    (hs : PoolReachable k n s) :
    s.active ≤ k ∧ s.pending + s.active + s.done = n
    ∧ (s.done ≠ n → ∃ t, PoolStep k s t) := by
  obtain ⟨h1, h2⟩ := pool_invariant k n s hs
  refine ⟨h1, h2, fun hdone => ?_⟩
  by_cases hact : 0 < s.active
  · exact ⟨_, PoolStep.finish hact⟩
  · have hpend : 0 < s.pending := by omega
    exact ⟨_, PoolStep.start hpend (by omega)⟩

/-- C3 witness: bound `k = 1`, batch of `n = 2` items, at the reachable
state with one task in flight and one queued. -/
theorem bounded_pool_witness :
    1 ≤ 1 ∧ PoolReachable 1 2 ⟨1, 1, 0⟩
    ∧ (PoolState.active ⟨1, 1, 0⟩ ≤ 1
        ∧ PoolState.pending ⟨1, 1, 0⟩ + PoolState.active ⟨1, 1, 0⟩
            + PoolState.done ⟨1, 1, 0⟩ = 2
        ∧ (PoolState.done ⟨1, 1, 0⟩ ≠ 2 → ∃ t, PoolStep 1 ⟨1, 1, 0⟩ t)) := by
  have reach : PoolReachable 1 2 ⟨1, 1, 0⟩ :=
    Relation.ReflTransGen.single
      (PoolStep.start (s := ⟨2, 0, 0⟩) (by decide) (by decide))
  exact ⟨le_refl 1, reach, bounded_pool_safe_and_live 1 2 (le_refl 1) ⟨1, 1, 0⟩ reach⟩

/-! C6 and C10: thread-id deduplication. -/

theorem collect_cons_some (limit : Nat) (seen : List JStr) (run : RawRun)
    (rest : List RawRun) (t : JStr) (h : rawThreadId run = some t) :
    collectThreadIds limit seen (run :: rest)
      = if t ≠ [] ∧ t ∉ seen then
          (if seen.length + 1 ≥ limit then [t]
           else t :: collectThreadIds limit (t :: seen) rest)
        else collectThreadIds limit seen rest := by
  simp [collectThreadIds, h]

theorem collect_cons_none (limit : Nat) (seen : List JStr) (run : RawRun)
    (rest : List RawRun) (h : rawThreadId run = none) :
    collectThreadIds limit seen (run :: rest) = collectThreadIds limit seen rest := by
  simp [collectThreadIds, h]

theorem collectSpec_cons_some (seen : List JStr) (run : RawRun)
    (rest : List RawRun) (t : JStr) (h : rawThreadId run = some t) :
    collectThreadIdsSpec seen (run :: rest)
      = if t ≠ [] ∧ t ∉ seen then t :: collectThreadIdsSpec (t :: seen) rest
        else collectThreadIdsSpec seen rest := by
  simp [collectThreadIdsSpec, h]

theorem collectSpec_cons_none (seen : List JStr) (run : RawRun)
    (rest : List RawRun) (h : rawThreadId run = none) :
    collectThreadIdsSpec seen (run :: rest) = collectThreadIdsSpec seen rest := by
  simp [collectThreadIdsSpec, h]

theorem collectThreadIds_eq_take (runs : List RawRun) :
    ∀ (limit : Nat) (seen : List JStr),
      collectThreadIds limit seen runs =
        (collectThreadIdsSpec seen runs).take (max (limit - seen.length) 1) := by
  induction runs with
  | nil => intro limit seen; simp [collectThreadIds, collectThreadIdsSpec]
  | cons run rest ih =>
    intro limit seen
    cases h : rawThreadId run with
    | none =>
      rw [collect_cons_none limit seen run rest h,
        collectSpec_cons_none seen run rest h]
      exact ih limit seen
    | some t =>
      rw [collect_cons_some limit seen run rest t h,
        collectSpec_cons_some seen run rest t h]
      by_cases hcond : t ≠ [] ∧ t ∉ seen
      · rw [if_pos hcond, if_pos hcond]
        by_cases hbreak : seen.length + 1 ≥ limit
        · rw [if_pos hbreak]
          have h1 : max (limit - seen.length) 1 = 1 := by omega
          rw [h1]
          simp
        · rw [if_neg hbreak, ih limit (t :: seen)]
          have h2 : max (limit - seen.length) 1
              = (limit - (seen.length + 1)) + 1 := by omega
          rw [h2, List.take_succ_cons]
          have h3 : (t :: seen).length = seen.length + 1 := rfl
          rw [h3]
          have h4 : max (limit - (seen.length + 1)) 1
              = limit - (seen.length + 1) := by omega
          rw [h4]
      · rw [if_neg hcond, if_neg hcond]
        exact ih limit seen

theorem dedupThreadIds_eq_take (runs : List RawRun) (limit : Nat) :
    dedupThreadIds runs limit = (dedupAllThreadIds runs).take (max limit 1) := by
  simpa [dedupThreadIds, dedupAllThreadIds] using
    collectThreadIds_eq_take runs limit []

theorem collectThreadIdsSpec_not_mem_seen (runs : List RawRun) :
    ∀ (seen : List JStr) (t : JStr),
      t ∈ collectThreadIdsSpec seen runs → t ∉ seen := by
  induction runs with
  | nil => intro seen t ht; simp [collectThreadIdsSpec] at ht
  | cons run rest ih =>
    intro seen t ht
    cases h : rawThreadId run with
    | none =>
      rw [collectSpec_cons_none seen run rest h] at ht
      exact ih seen t ht
    | some u =>
      rw [collectSpec_cons_some seen run rest u h] at ht
      by_cases hcond : u ≠ [] ∧ u ∉ seen
      · rw [if_pos hcond] at ht
        rcases List.mem_cons.mp ht with rfl | hmem
        · exact hcond.2
        · intro hseen
          exact ih (u :: seen) t hmem (List.mem_cons_of_mem u hseen)
      · rw [if_neg hcond] at ht
        exact ih seen t ht

theorem collectThreadIdsSpec_nodup (runs : List RawRun) :
    ∀ seen : List JStr, (collectThreadIdsSpec seen runs).Nodup := by
  induction runs with
  | nil => intro seen; simp [collectThreadIdsSpec]
  | cons run rest ih =>
    intro seen
    cases h : rawThreadId run with
    | none => rw [collectSpec_cons_none seen run rest h]; exact ih seen
    | some t =>
      rw [collectSpec_cons_some seen run rest t h]
      by_cases hcond : t ≠ [] ∧ t ∉ seen
      · rw [if_pos hcond]
        refine List.nodup_cons.mpr ⟨?_, ih (t :: seen)⟩
        intro hmem
        exact collectThreadIdsSpec_not_mem_seen rest (t :: seen) t hmem
          (List.mem_cons_self t seen)
      · rw [if_neg hcond]
        exact ih seen

theorem collectThreadIdsSpec_ne_nil (runs : List RawRun) :
    ∀ (seen : List JStr) (r : RawRun) (t : JStr), r ∈ runs →
      rawThreadId r = some t → t ≠ [] → t ∉ seen →
      collectThreadIdsSpec seen runs ≠ [] := by
  induction runs with
  | nil => intro _ _ _ hr; simp at hr
  | cons run rest ih =>
    intro seen r t hr ht htne hts
    rcases List.mem_cons.mp hr with rfl | hmem
    · rw [collectSpec_cons_some seen r rest t ht, if_pos ⟨htne, hts⟩]
      simp
    · cases h : rawThreadId run with
      | none =>
        rw [collectSpec_cons_none seen run rest h]
        exact ih seen r t hmem ht htne hts
      | some u =>
        rw [collectSpec_cons_some seen run rest u h]
        by_cases hcond : u ≠ [] ∧ u ∉ seen
        · rw [if_pos hcond]; simp
        · rw [if_neg hcond]
          exact ih seen r t hmem ht htne hts

/-- A run whose custom metadata carries the given thread id (for the
dedup counterexample and witnesses). -/
def mkThreadRun (t : JStr) : RawRun :=
  { id := ['r'], extra := some { metadata := some { thread_id := some t } } }

/-- C6 counterexample: the claim ranges over every requested limit, but
at limit 0 the scan does not stop when the collection reaches the limit
(which an empty collection already has): the cap is only checked after an
insertion (fetchers.ts line 316), so a single run carrying thread id a
yields one selected id, and the result's length exceeds the limit. -/
theorem dedup_limit_zero_counterexample :
    (dedupThreadIds [mkThreadRun ['a']] 0).length = 1
    ∧ ¬ (dedupThreadIds [mkThreadRun ['a']] 0).length ≤ 0 := by
  refine ⟨by decide, by decide⟩

/-- C6 amended: for every run list and every requested limit ≥ 1, the capped
deduplication loop of `fetchThreads` returns exactly the first `limit`
entries of the order-preserving unique collection of extracted thread ids
(spec §4.6: "thread_id" preferred, "session_id" as fallback, first
occurrence wins, later occurrences ignored — `dedupAllThreadIds` is that
spec-side collection built over the source's extraction): the result has
no duplicate ids, and its length shows that scanning stopped as soon as
the collection reached the limit (it is `limit` when at least `limit`
distinct ids occur, and the number of distinct ids otherwise). -/
theorem dedup_thread_ids_first_seen_capped (runs : List RawRun) (limit : Nat)
    (hl : 1 ≤ limit) :
    dedupThreadIds runs limit = (dedupAllThreadIds runs).take limit
    ∧ (dedupThreadIds runs limit).Nodup
    ∧ (dedupThreadIds runs limit).length
        = min limit (dedupAllThreadIds runs).length := by
  have hmax : max limit 1 = limit := by omega
  have he := dedupThreadIds_eq_take runs limit
  rw [hmax] at he
  refine ⟨he, ?_, ?_⟩
  · rw [he]
    exact (collectThreadIdsSpec_nodup runs []).sublist (List.take_sublist _ _)
  · rw [he, List.length_take]

/-- The spec example's run list: metadata thread ids [a, a, b, a, c]. -/
def exDedupRuns : List RawRun :=
  [mkThreadRun ['a'], mkThreadRun ['a'], mkThreadRun ['b'],
   mkThreadRun ['a'], mkThreadRun ['c']]

/-- C6 witness: runs with metadata thread ids [a, a, b, a, c] and limit 2
give [a, b] — first-seen order, capped at the limit. -/
theorem dedup_thread_ids_witness :
    1 ≤ 2
    ∧ (dedupThreadIds exDedupRuns 2 = (dedupAllThreadIds exDedupRuns).take 2
        ∧ (dedupThreadIds exDedupRuns 2).Nodup
        ∧ (dedupThreadIds exDedupRuns 2).length
            = min 2 (dedupAllThreadIds exDedupRuns).length)
    ∧ dedupThreadIds exDedupRuns 2 = [['a'], ['b']] := by
  refine ⟨by decide, dedup_thread_ids_first_seen_capped exDedupRuns 2 (by decide),
    by decide⟩

/-- C10: the cap of the deduplication loop is checked only after an
insertion (fetchers.ts line 316), so the number of selected thread ids is
bounded by `max limit 1`, not by `limit`; in particular, for any run list
containing at least one run with a (truthy) thread identifier, a
requested limit of 0 still selects exactly one thread id, which
`fetchThreads` then fetches. -/
theorem dedup_cap_checked_after_insert (runs : List RawRun) (limit : Nat)
    (r : RawRun) (t : JStr) (hr : r ∈ runs) (ht : rawThreadId r = some t)
    (htne : t ≠ []) :
    (dedupThreadIds runs limit).length ≤ max limit 1
    ∧ (dedupThreadIds runs 0).length = 1 := by
  constructor
  · rw [dedupThreadIds_eq_take, List.length_take]
    omega
  · rw [dedupThreadIds_eq_take]
    have hne : dedupAllThreadIds runs ≠ [] :=
      collectThreadIdsSpec_ne_nil runs [] r t hr ht htne (by simp)
    have hlen : 1 ≤ (dedupAllThreadIds runs).length :=
      Nat.one_le_iff_ne_zero.mpr (by simpa using hne)
    rw [List.length_take]
    omega

/-- C10 witness: a single run carrying thread id a, limit 0: one id is
still selected. -/
theorem dedup_cap_witness :
    mkThreadRun ['a'] ∈ [mkThreadRun ['a']]
    ∧ rawThreadId (mkThreadRun ['a']) = some ['a']
    ∧ (['a'] : JStr) ≠ []
    ∧ ((dedupThreadIds [mkThreadRun ['a']] 0).length ≤ max 0 1
        ∧ (dedupThreadIds [mkThreadRun ['a']] 0).length = 1)
    ∧ dedupThreadIds [mkThreadRun ['a']] 0 = [['a']] := by
  refine ⟨List.mem_singleton.mpr rfl, rfl, by decide, ?_, by decide⟩
  exact dedup_cap_checked_after_insert [mkThreadRun ['a']] 0 (mkThreadRun ['a'])
    ['a'] (List.mem_singleton.mpr rfl) rfl (by decide)

/-! C7: the message-stream parser. -/

/-- The two-consecutive-newline separator of the message blob. -/
def sepNN : JStr := ['\n', '\n']

/-- A segment is well-delimited when it contains no two consecutive
newline characters and does not end in a newline: gluing such a segment
to the left of a `"\n\n"` separator cannot create an earlier occurrence
of the separator. -/
def okSeg : List Char → Bool
  | [] => true
  | [c] => !(c = '\n')
  | c :: d :: rest => !(c = '\n' && d = '\n') && okSeg (d :: rest)

theorem splitNN_sep_cons (b : List Char) :
    splitNN ('\n' :: '\n' :: b) = [] :: splitNN b := by
  cases b <;> simp [splitNN]

theorem splitNN_cons_of_eq (c d : Char) (rest s : List Char)
    (ss : List (List Char)) (h : ¬ (c = '\n' ∧ d = '\n'))
    (he : splitNN (d :: rest) = s :: ss) :
    splitNN (c :: d :: rest) = (c :: s) :: ss := by
  have hstep : splitNN (c :: d :: rest)
      = (match splitNN (d :: rest) with
         | [] => [[c]]
         | s :: ss => (c :: s) :: ss) := by
    simp [splitNN, h]
  rw [hstep, he]

theorem splitNN_append_sep (b : List Char) :
    ∀ a : List Char, okSeg a = true →
      splitNN (a ++ '\n' :: '\n' :: b) = a :: splitNN b := by
  intro a
  induction a with
  | nil => intro _; simpa using splitNN_sep_cons b
  | cons c a' ih =>
    intro h
    cases a' with
    | nil =>
      have hc : ¬ c = '\n' := by simpa [okSeg] using h
      simp only [List.cons_append, List.nil_append]
      exact splitNN_cons_of_eq c '\n' ('\n' :: b) [] (splitNN b)
        (fun hcd => hc hcd.1) (splitNN_sep_cons b)
    | cons d rest =>
      have h1 : ¬ (c = '\n' ∧ d = '\n') := by
        intro hcd
        simp [okSeg, hcd.1, hcd.2] at h
      have h2 : okSeg (d :: rest) = true := by
        have hh := h
        simp only [okSeg, Bool.and_eq_true] at hh
        exact hh.2
      have hrec := ih h2
      simp only [List.cons_append] at hrec ⊢
      exact splitNN_cons_of_eq c d (rest ++ '\n' :: '\n' :: b) (d :: rest)
        (splitNN b) h1 hrec

theorem parseMessageStream_pipeline {μ : Type} (decode : JStr → Option μ)
    (l : List JStr) :
    (l.filterMap fun line =>
        let t := jsTrim line
        if t = [] then none else decode t)
      = ((l.map jsTrim).filter fun t => !t.isEmpty).filterMap decode := by
  induction l with
  | nil => simp
  | cons a l ih =>
    by_cases h : jsTrim a = []
    · simp [List.filterMap_cons, List.filter_cons, h, ih]
    · cases hd : decode (jsTrim a) <;>
        simp [List.filterMap_cons, List.filter_cons, h, hd, ih]

/-- C7: the message-stream parser, for an arbitrary JSON decoder
(`decode t` models `JSON.parse(t)`, `none` a thrown SyntaxError):
(a) for every input blob, the output is obtained by splitting the blob on
the two-consecutive-newline separator, trimming each segment, discarding
the empty segments, and decoding the survivors in source order, dropping
the segments that fail to decode; (b) inserting a malformed well-delimited
segment (one that trims to empty or fails to decode) between two blobs
leaves the parse unchanged — one bad segment never affects the decoding
of the others. -/
theorem message_stream_parse_spec {μ : Type} (decode : JStr → Option μ)
    (s1 bad s2 : JStr) (h1 : okSeg s1 = true) (hb : okSeg bad = true)
    (hdrop : jsTrim bad = [] ∨ decode (jsTrim bad) = none) :
    (∀ blob : JStr,
        parseMessageStream decode blob
          = (((splitNN blob).map jsTrim).filter fun t => !t.isEmpty).filterMap
              decode)
    ∧ parseMessageStream decode (s1 ++ sepNN ++ bad ++ sepNN ++ s2)
        = parseMessageStream decode (s1 ++ sepNN ++ s2) := by
  have hpipe : ∀ blob : JStr,
      parseMessageStream decode blob
        = (((splitNN blob).map jsTrim).filter fun t => !t.isEmpty).filterMap
            decode := by
    intro blob
    rw [parseMessageStream, parseMessageStream_pipeline]
  refine ⟨hpipe, ?_⟩
  have hassoc : s1 ++ sepNN ++ bad ++ sepNN ++ s2
      = s1 ++ '\n' :: '\n' :: (bad ++ '\n' :: '\n' :: s2) := by
    simp [sepNN]
  have hassoc2 : s1 ++ sepNN ++ s2 = s1 ++ '\n' :: '\n' :: s2 := by
    simp [sepNN]
  have hsplit1 : splitNN (s1 ++ '\n' :: '\n' :: (bad ++ '\n' :: '\n' :: s2))
      = s1 :: bad :: splitNN s2 := by
    rw [splitNN_append_sep _ s1 h1, splitNN_append_sep _ bad hb]
  have hsplit2 : splitNN (s1 ++ '\n' :: '\n' :: s2) = s1 :: splitNN s2 :=
    splitNN_append_sep s2 s1 h1
  have hbad : (if jsTrim bad = [] then none
      else decode (jsTrim bad) : Option μ) = none := by
    rcases hdrop with hd | hd
    · simp [hd]
    · by_cases he : jsTrim bad = [] <;> simp [he, hd]
  simp only [parseMessageStream]
  rw [hassoc, hassoc2, hsplit1, hsplit2]
  cases hs1 : (if jsTrim s1 = [] then none
      else decode (jsTrim s1) : Option μ) <;>
    simp [List.filterMap_cons, hs1, hbad]

/-- The first well-formed message encoding of the spec example. -/
def exSegHuman : JStr := "\x7b\"type\":\"human\",\"content\":\"Hello\"\x7d".toList

/-- The second well-formed message encoding of the spec example. -/
def exSegAi : JStr := "\x7b\"type\":\"ai\",\"content\":\"Hi\"\x7d".toList

/-- The malformed segment of the spec example. -/
def exBadSeg : JStr := "not json".toList

/-- A concrete decoder for the C7 witness: it decodes the two example
segments (to the tokens 1 and 2) and fails on everything else, as
`JSON.parse` would fail on `not json`. -/
def exDecode : JStr → Option Nat := fun t =>
  if t = exSegHuman then some 1 else if t = exSegAi then some 2 else none

/-- C7 witness: the blob of the two example messages parses to the two
messages in order, and inserting the malformed segment `not json`
between them (with blank-line separators) leaves the result unchanged. -/
theorem message_stream_parse_witness :
    okSeg exSegHuman = true ∧ okSeg exBadSeg = true
    ∧ (jsTrim exBadSeg = [] ∨ exDecode (jsTrim exBadSeg) = none)
    ∧ parseMessageStream exDecode
          (exSegHuman ++ sepNN ++ exBadSeg ++ sepNN ++ exSegAi)
        = parseMessageStream exDecode (exSegHuman ++ sepNN ++ exSegAi)
    ∧ parseMessageStream exDecode (exSegHuman ++ sepNN ++ exSegAi) = [1, 2] := by
  refine ⟨by decide, by decide, Or.inr (by decide), ?_, by decide⟩
  exact (message_stream_parse_spec exDecode exSegHuman exBadSeg exSegAi
    (by decide) (by decide) (Or.inr (by decide))).2

end LangsmithFetch
